import Mathlib

/-!
Verification development for the owl package-reconciliation tool.

This file embeds the package-adoption workflow (src/commands/adopt.rs) and
the apply-time package handling (src/commands/apply/packages.rs) as Lean
definitions, and proves the specified properties about them.

External effects (filesystem, interactive prompts, the package-manager
backend, environment variables) are modelled as explicit inputs: the file a
write targets is an (Option String) value, prompt answers and backend
results are injected per call.
-/

namespace Owl

/-! ## String helpers

The Rust code works with str::lines, str::trim and to_ascii_lowercase.
These are modelled structurally over the character data of a string so that
they evaluate by kernel reduction.
-/

/-- Splits a character list at newline characters; the accumulator holds the
current line reversed. Models the splitting underlying Rust str::lines. -/
def splitLinesChars : List Char → List Char → List (List Char)
  | [], acc => [acc.reverse]
  | c :: rest, acc =>
    if c = '\n' then acc.reverse :: splitLinesChars rest []
    else splitLinesChars rest (c :: acc)

/-- Model of Rust str::lines: split on newline, drop a final empty segment
produced by a trailing newline, and strip one trailing carriage return from
each line. -/
def rustLines (s : String) : List String :=
  let raw := splitLinesChars s.data []
  let raw := if raw.getLast? = some [] then raw.dropLast else raw
  raw.map fun cs => String.mk (if cs.getLast? = some '\r' then cs.dropLast else cs)

/-- Model of Rust str::trim: remove leading and trailing whitespace. -/
def strTrim (s : String) : String :=
  String.mk (((s.data.dropWhile Char.isWhitespace).reverse.dropWhile Char.isWhitespace).reverse)

/-- Model of Rust str::to_ascii_lowercase (Char.toLower lowercases exactly
the ASCII uppercase letters). -/
def lowerAscii (s : String) : String :=
  String.mk (s.data.map Char.toLower)

/-- Model of Rust Vec::join applied to lines with separator newline. -/
def joinLines : List String → String
  | [] => ""
  | [l] => l
  | l :: rest => l ++ "\n" ++ joinLines rest

/-- Character comparison by scalar value (Rust orders strings by their
UTF-8 bytes, which on whole characters coincides with scalar-value
order). -/
def charLt (a b : Char) : Bool := a < b

/-- Lexicographic less-or-equal on character lists. -/
def strLeChars : List Char → List Char → Bool
  | [], _ => true
  | _ :: _, [] => false
  | a :: as, b :: bs => if a = b then strLeChars as bs else charLt a b

/-- Model of the ascending string order used by Vec::sort on Vec of
String. -/
def strLe (a b : String) : Bool := strLeChars a.data b.data

/-! ## Data model

The types PackageState (src/core/state.rs) and Config (src/core/config.rs)
are declared outside the files under verification; they are modelled from
the spec (sections 3, 4.1 and 6).
-/

/-- Modelled from the spec: the per-package metadata record of the Declared
Configuration (list of config-file references, optional service descriptor,
environment-variable mapping). Its contents are never inspected by the code
under verification; only key membership in the packages map is. -/
structure Package where
  config : List String
  service : Option String
  env_vars : List (String × String)
deriving DecidableEq, Repr

/-- Modelled from the spec: the Declared Configuration, a mapping from
package name (unique key) to its metadata record. -/
structure Config where
  packages : List (String × Package)
deriving DecidableEq, Repr

/-- Key-membership test of the Declared Configuration
(HashMap::contains_key in the Rust code). -/
def Config.contains_key (c : Config) (name : String) : Bool :=
  c.packages.any fun kv => kv.fst = name

/-- Modelled from the spec: the Persisted Classification Store, three sets
of package names (managed, untracked, hidden). Field order follows the Rust
struct literal visible in the adopt.rs test module. -/
structure PackageState where
  untracked : List String
  hidden : List String
  managed : List String
deriving DecidableEq, Repr

namespace PackageState

/-- Modelled from the spec: pure membership lookup in the managed set. -/
def is_managed (s : PackageState) (p : String) : Bool :=
  s.managed.contains p

/-- Modelled from the spec: pure membership lookup in the untracked set. -/
def is_untracked (s : PackageState) (p : String) : Bool :=
  s.untracked.contains p

/-- Modelled from the spec: add_managed updates set membership of the
managed set only; per the spec's design notes it does not evict the name
from the untracked set. -/
def add_managed (s : PackageState) (p : String) : PackageState :=
  if s.managed.contains p then s else { s with managed := s.managed ++ [p] }

/-- Modelled from the spec: remove_managed removes the name from the
managed set and touches nothing else. -/
def remove_managed (s : PackageState) (p : String) : PackageState :=
  { s with managed := s.managed.filter fun q => q ≠ p }

/-- Modelled from the spec: add_untracked updates set membership of the
untracked set only. -/
def add_untracked (s : PackageState) (p : String) : PackageState :=
  if s.untracked.contains p then s else { s with untracked := s.untracked ++ [p] }

/-- Modelled from the spec: remove_untracked removes the name from the
untracked set and touches nothing else. -/
def remove_untracked (s : PackageState) (p : String) : PackageState :=
  { s with untracked := s.untracked.filter fun q => q ≠ p }

end PackageState

/-- Modelled from the spec: the line parser behind Config::parse
(src/core/config.rs is not part of the sources under verification). A
section is introduced by a line whose trimmed content is the packages
header; subsequent non-blank lines until the next section header (a trimmed
line starting with the at sign) are bare package names. -/
def parsePackageLines : List String → Bool → List String
  | [], _ => []
  | l :: rest, inPkgs =>
    let t := strTrim l
    if t = "@packages" ∨ t = "@pkgs" then parsePackageLines rest true
    else if t.data.head? = some '@' then parsePackageLines rest false
    else if t = "" then parsePackageLines rest inPkgs
    else if inPkgs then t :: parsePackageLines rest true
    else parsePackageLines rest false

/-- Modelled from the spec: Config::parse on raw file content, following
the Declared Configuration file format of the spec's external-interface
section. The described format is total, so parsing always succeeds. -/
def Config.parseSpec (content : String) : Option Config :=
  some ⟨(parsePackageLines (rustLines content) false).map fun n => (n, ⟨[], none, []⟩)⟩

/-! ## adopt.rs: enums and pure helpers -/

/-- The four interactive choices of the adoption prompt (enum PackageAction
in adopt.rs). -/
inductive PackageAction
  | Adopt
  | Ignore
  | Skip
  | Quit
deriving DecidableEq, Repr

/-- Result of add_package_to_file (enum AddResult in adopt.rs). -/
inductive AddResult
  | Added
  | AlreadyPresent
deriving DecidableEq, Repr

/-- normalize_targets from adopt.rs: trim each item, drop empties, keep the
first occurrence of each name in input order. The seen argument plays the
role of the HashSet. -/
def normalizeTargetsGo (seen : List String) : List String → List String
  | [] => []
  | item :: rest =>
    let name := strTrim item
    if name = "" then normalizeTargetsGo seen rest
    else if seen.contains name then normalizeTargetsGo seen rest
    else name :: normalizeTargetsGo (name :: seen) rest

/-- normalize_targets from adopt.rs. -/
def normalize_targets (items : List String) : List String :=
  normalizeTargetsGo [] items

/-- discover_candidates_from_explicit from adopt.rs: filter the explicitly
installed set by the three exclusions, then sort ascending. The HashSet is
modelled as a duplicate-free list; Vec::sort is modelled as sorting by the
lexicographic string order. -/
def discover_candidates_from_explicit (explicit_installed : List String)
    (state : PackageState) (config : Config) : List String :=
  let candidates :=
    ((explicit_installed.filter fun p => !(state.is_managed p)).filter
        fun p => !(state.is_untracked p)).filter
      fun p => !(config.contains_key p)
  candidates.insertionSort fun a b => strLe a b = true

/-- config_contains_package from adopt.rs, parameterized by the parse
function (an external collaborator of the files under verification): use
the parsed key set when parsing succeeds, otherwise fall back to a literal
trimmed-line match. -/
def config_contains_package (parse : String → Option Config)
    (package_name content : String) : Bool :=
  match parse content with
  | some parsed => parsed.contains_key package_name
  | none => (rustLines content).any fun line => strTrim line = package_name

/-- The header-insertion loop of add_package_to_file: insert the package
name right after the first line whose trimmed content is a packages
section header; none when no header line exists. -/
def insertAfterHeader (package_name : String) : List String → Option (List String)
  | [] => none
  | l :: rest =>
    if strTrim l = "@packages" ∨ strTrim l = "@pkgs" then
      some (l :: package_name :: rest)
    else
      (insertAfterHeader package_name rest).map fun ls => l :: ls

/-- add_package_to_file from adopt.rs, with the filesystem made explicit:
the file argument is none when the file does not exist, otherwise its
content; the result pairs the AddResult with the file afterwards. On
AlreadyPresent nothing is written; otherwise the name is inserted under the
first section header, or a header (preceded by a blank separator when the
file is non-empty and does not already end blank) plus the name are
appended, and the lines are rejoined with a single trailing newline. -/
def add_package_to_file (parse : String → Option Config)
    (package_name : String) (file : Option String) : AddResult × Option String :=
  let content := file.getD ""
  if config_contains_package parse package_name content then
    (AddResult.AlreadyPresent, file)
  else
    let lines := rustLines content
    let lines :=
      match insertAfterHeader package_name lines with
      | some ls => ls
      | none =>
        let ls :=
          if lines ≠ [] ∧ lines.getLast? ≠ some "" then lines ++ [""] else lines
        ls ++ ["@packages", package_name]
    (AddResult.Added, some (joinLines lines ++ "\n"))

/-! ## adopt.rs: the interactive adoption loop

The loop in run (adopt.rs) is modelled with its external collaborators made
explicit: the answer of prompt_package_action (None on an input read
failure), the outcome of prompt_config_file_selection (a chosen path,
cancellation, or a read error), and the outcome of the filesystem-facing
add_package_to_file call are supplied per target.
-/

/-- Outcome of prompt_config_file_selection: Ok(Some path), Ok(None) on
cancellation, or Err on a read failure. -/
inductive SelOutcome
  | chosen (path : String)
  | cancelled
  | errored
deriving DecidableEq, Repr

/-- Outcome of the add_package_to_file call as seen by the loop: Ok with an
AddResult, or Err on a filesystem failure. -/
inductive AddOutcome
  | ok (r : AddResult)
  | err
deriving DecidableEq, Repr

/-- The external responses available to one loop iteration; only the parts
the control flow reaches are consulted. -/
structure TargetInput where
  prompt : Option PackageAction
  sel : SelOutcome
  add : AddOutcome
deriving DecidableEq, Repr

/-- The mutable locals of run across loop iterations: the in-memory store,
the mutation flag, the cached config-file selection, and the per-outcome
report lists. -/
structure LoopState where
  state : PackageState
  state_changed : Bool
  selected_config : Option String
  adopted : List String
  adopted_state_only : List String
  ignored : List String
  skipped : List String
  skipped_not_installed : List String
  skipped_already_managed : List String
deriving DecidableEq, Repr

/-- How the loop over targets ended: ran through all targets, break on a
prompt read failure, break on selection cancellation, early return on a
selection read error, or break on the Quit action. -/
inductive LoopExit
  | finished
  | promptReadFail
  | selectionCancelled
  | selectionError
  | quitExit
deriving DecidableEq, Repr

/-- One iteration either continues with the updated locals or stops the
loop with the given exit. -/
inductive StepOut
  | cont (ls : LoopState)
  | stop (ls : LoopState) (ex : LoopExit)
deriving DecidableEq, Repr

/-- The state updates shared by the two successful Adopt outcomes and the
per-target recoverable write failure, entered with the config path already
resolved (and cached). -/
def adoptStep (pkg path : String) (add : AddOutcome) (ls : LoopState) : StepOut :=
  let ls := { ls with selected_config := some path }
  match add with
  | AddOutcome.ok AddResult.Added =>
    StepOut.cont { ls with
      state := (ls.state.remove_untracked pkg).add_managed pkg
      state_changed := true
      adopted := ls.adopted ++ [pkg] }
  | AddOutcome.ok AddResult.AlreadyPresent =>
    StepOut.cont { ls with
      state := (ls.state.remove_untracked pkg).add_managed pkg
      state_changed := true
      adopted_state_only := ls.adopted_state_only ++ [pkg] }
  | AddOutcome.err => StepOut.cont ls

/-- The tail of one loop iteration of run (adopt.rs): the installed check,
the declared-configuration check and the interactive prompt, reached once
the already-managed and discovery-untracked checks have passed. -/
def processChecks (installed : List String) (config : Config)
    (pkg : String) (input : TargetInput) (ls : LoopState) : StepOut :=
  if !(installed.contains pkg) then
    StepOut.cont { ls with skipped_not_installed := ls.skipped_not_installed ++ [pkg] }
  else if config.contains_key pkg then
    StepOut.cont { ls with
      state := ls.state.add_managed pkg
      state_changed := true
      adopted_state_only := ls.adopted_state_only ++ [pkg] }
  else
    match input.prompt with
    | none => StepOut.stop ls LoopExit.promptReadFail
    | some PackageAction.Adopt =>
      match ls.selected_config with
      | some path => adoptStep pkg path input.add ls
      | none =>
        match input.sel with
        | SelOutcome.chosen path => adoptStep pkg path input.add ls
        | SelOutcome.cancelled => StepOut.stop ls LoopExit.selectionCancelled
        | SelOutcome.errored => StepOut.stop ls LoopExit.selectionError
    | some PackageAction.Ignore =>
      StepOut.cont { ls with
        state := (ls.state.add_untracked pkg).remove_managed pkg
        state_changed := true
        ignored := ls.ignored ++ [pkg] }
    | some PackageAction.Skip =>
      StepOut.cont { ls with skipped := ls.skipped ++ [pkg] }
    | some PackageAction.Quit => StepOut.stop ls LoopExit.quitExit

/-- The body of the for-loop in run (adopt.rs), one target at a time,
applying the per-target rules top to bottom. -/
def processTarget (discover_mode : Bool) (installed : List String)
    (config : Config) (pkg : String) (input : TargetInput) (ls : LoopState) : StepOut :=
  if ls.state.is_managed pkg then
    StepOut.cont { ls with skipped_already_managed := ls.skipped_already_managed ++ [pkg] }
  else if discover_mode && ls.state.is_untracked pkg then
    StepOut.cont { ls with skipped := ls.skipped ++ [pkg] }
  else
    processChecks installed config pkg input ls

/-- The for-loop of run over the prepared targets. -/
def runLoop (discover_mode : Bool) (installed : List String) (config : Config) :
    List (String × TargetInput) → LoopState → LoopState × LoopExit
  | [], ls => (ls, LoopExit.finished)
  | (pkg, input) :: rest, ls =>
    match processTarget discover_mode installed config pkg input ls with
    | StepOut.cont ls2 => runLoop discover_mode installed config rest ls2
    | StepOut.stop ls2 ex => (ls2, ex)

/-- The locals of run at loop entry: the loaded store, no mutation yet, no
cached selection, empty report lists. -/
def initLoopState (st : PackageState) : LoopState :=
  ⟨st, false, none, [], [], [], [], [], []⟩

/-- Result of one adoption-command run: the final locals, how the loop
ended, and whether the store was saved. -/
structure RunOutcome where
  final : LoopState
  exit : LoopExit
  saved : Bool
deriving DecidableEq, Repr

/-- run from adopt.rs, from loop entry onward: drive the loop, then perform
the post-loop save when the mutation flag is set — except on a selection
read error, whose branch returns from run before the post-loop save. -/
def runAdopt (discover_mode : Bool) (installed : List String) (config : Config)
    (targets : List (String × TargetInput)) (st : PackageState) : RunOutcome :=
  let r := runLoop discover_mode installed config targets (initLoopState st)
  if r.snd = LoopExit.selectionError then ⟨r.fst, r.snd, false⟩
  else ⟨r.fst, r.snd, r.fst.state_changed⟩

/-! ## apply/packages.rs -/

/-- handle_removals from apply/packages.rs, with the collaborators made
explicit: confirm is the answer of the confirmation UI, backend_ok the
success of the batch removal call. The returned store is the store after
the call; it is unchanged unless the batch is non-empty, not a dry run,
confirmed and the backend call succeeded, in which case every package of
the batch is dropped from managed. -/
def handle_removals (to_remove : List String) (dry_run : Bool)
    (confirm : Bool) (backend_ok : Bool) (state : PackageState) : PackageState :=
  if to_remove.isEmpty then state
  else if dry_run then state
  else if !confirm then state
  else if !backend_ok then state
  else to_remove.foldl (fun s p => s.remove_managed p) state

/-- categorize_install_sets from apply/packages.rs: the backend
categorization call is injected; on failure the error is reported and the
empty partition is returned instead of aborting. -/
def categorize_install_sets (to_install : List String)
    (categorize : List String → Except String (List String × List String)) :
    List String × List String :=
  if to_install.isEmpty then ([], [])
  else
    match categorize to_install with
    | Except.ok result => result
    | Except.error _ => ([], [])

/-- compute_aur_updates from apply/packages.rs: skipped entirely under dry
run; on a failed update query the error is reported and the empty list is
used. -/
def compute_aur_updates (dry_run : Bool)
    (get_updates : Except String (List String)) : List String :=
  if dry_run then []
  else
    match get_updates with
    | Except.ok packages => packages
    | Except.error _ => []

/-- use_pm_passthrough from apply/packages.rs: the environment variable
OWL_PM_PASSTHROUGH is injected as an Option. Always false when running
non-interactively; otherwise the value is trimmed, ASCII-lowercased and
compared against the four enabling tokens. -/
def use_pm_passthrough (non_interactive : Bool) (env : Option String) : Bool :=
  if non_interactive then false
  else
    match env with
    | some value =>
      let v := lowerAscii (strTrim value)
      v = "1" ∨ v = "true" ∨ v = "yes" ∨ v = "on"
    | none => false

/-- The enabling condition exactly as the spec sentence for the
environment toggle states it, for comparison with use_pm_passthrough: the
value of the variable, case-insensitively, is one of the four tokens; any
other value or absence disables; always disabled non-interactively. The
sentence mentions no whitespace trimming. -/
def passthroughEnabledSpec (non_interactive : Bool) (env : Option String) : Bool :=
  !non_interactive &&
    match env with
    | some value =>
      let v := lowerAscii value
      v = "1" ∨ v = "true" ∨ v = "yes" ∨ v = "on"
    | none => false

/-! ## Helper lemmas about the classification-store operations -/

theorem contains_iff_mem (l : List String) (a : String) :
    l.contains a = true ↔ a ∈ l := by
  simp

theorem managed_add_managed (s : PackageState) (p q : String) :
    q ∈ (s.add_managed p).managed ↔ q ∈ s.managed ∨ q = p := by
  unfold PackageState.add_managed
  split
  · rename_i h
    rw [contains_iff_mem] at h
    constructor
    · exact Or.inl
    · rintro (hq | rfl)
      · exact hq
      · exact h
  · simp

theorem untracked_add_managed (s : PackageState) (p : String) :
    (s.add_managed p).untracked = s.untracked := by
  unfold PackageState.add_managed
  split <;> rfl

theorem hidden_add_managed (s : PackageState) (p : String) :
    (s.add_managed p).hidden = s.hidden := by
  unfold PackageState.add_managed
  split <;> rfl

theorem untracked_add_untracked (s : PackageState) (p q : String) :
    q ∈ (s.add_untracked p).untracked ↔ q ∈ s.untracked ∨ q = p := by
  unfold PackageState.add_untracked
  split
  · rename_i h
    rw [contains_iff_mem] at h
    constructor
    · exact Or.inl
    · rintro (hq | rfl)
      · exact hq
      · exact h
  · simp

theorem managed_add_untracked (s : PackageState) (p : String) :
    (s.add_untracked p).managed = s.managed := by
  unfold PackageState.add_untracked
  split <;> rfl

theorem managed_remove_managed (s : PackageState) (p q : String) :
    q ∈ (s.remove_managed p).managed ↔ q ∈ s.managed ∧ q ≠ p := by
  unfold PackageState.remove_managed
  simp [List.mem_filter]

theorem untracked_remove_managed (s : PackageState) (p : String) :
    (s.remove_managed p).untracked = s.untracked := rfl

theorem untracked_remove_untracked (s : PackageState) (p q : String) :
    q ∈ (s.remove_untracked p).untracked ↔ q ∈ s.untracked ∧ q ≠ p := by
  unfold PackageState.remove_untracked
  simp [List.mem_filter]

theorem managed_remove_untracked (s : PackageState) (p : String) :
    (s.remove_untracked p).managed = s.managed := rfl

theorem is_managed_iff (s : PackageState) (p : String) :
    s.is_managed p = true ↔ p ∈ s.managed := by
  unfold PackageState.is_managed
  exact contains_iff_mem _ _

theorem is_untracked_iff (s : PackageState) (p : String) :
    s.is_untracked p = true ↔ p ∈ s.untracked := by
  unfold PackageState.is_untracked
  exact contains_iff_mem _ _

/-! ## C1: discovery output -/

theorem strLeChars_total (as : List Char) : ∀ bs : List Char,
    strLeChars as bs = true ∨ strLeChars bs as = true := by
  induction as with
  | nil => intro bs; exact Or.inl rfl
  | cons a as ih =>
    intro bs
    cases bs with
    | nil => exact Or.inr rfl
    | cons b bs =>
      by_cases hab : a = b
      · subst hab
        simpa [strLeChars] using ih bs
      · rcases lt_or_gt_of_ne hab with hlt | hgt
        · left
          simp [strLeChars, hab, charLt, hlt]
        · right
          simp [strLeChars, Ne.symm hab, charLt, hgt]

theorem strLeChars_trans (as : List Char) : ∀ bs cs : List Char,
    strLeChars as bs = true → strLeChars bs cs = true → strLeChars as cs = true := by
  induction as with
  | nil => intro bs cs _ _; rfl
  | cons a as ih =>
    intro bs cs h1 h2
    cases bs with
    | nil => exact absurd h1 (by simp [strLeChars])
    | cons b bs =>
      cases cs with
      | nil => exact absurd h2 (by simp [strLeChars])
      | cons c cs =>
        by_cases hab : a = b
        · subst hab
          by_cases hac : a = c
          · subst hac
            simp only [strLeChars, if_pos rfl] at h1 h2 ⊢
            exact ih bs cs h1 h2
          · simp only [strLeChars, if_pos rfl] at h1
            simp only [strLeChars, if_neg hac] at h2 ⊢
            exact h2
        · by_cases hbc : b = c
          · subst hbc
            simp only [strLeChars, if_neg hab] at h1 ⊢
            exact h1
          · simp only [strLeChars, if_neg hab, charLt, decide_eq_true_eq] at h1
            simp only [strLeChars, if_neg hbc, charLt, decide_eq_true_eq] at h2
            have hac : a ≠ c := by
              intro h
              subst h
              exact absurd (lt_trans h1 h2) (lt_irrefl a)
            simp only [strLeChars, if_neg hac, charLt, decide_eq_true_eq]
            exact lt_trans h1 h2

instance : IsTotal String fun a b => strLe a b = true :=
  ⟨fun a b => strLeChars_total a.data b.data⟩

instance : IsTrans String fun a b => strLe a b = true :=
  ⟨fun a b c => strLeChars_trans a.data b.data c.data⟩

/-- C1: for every duplicate-free explicitly-installed set, every
classification store and every declared configuration, the discovery
function returns exactly the explicitly-installed names that are not
managed, not untracked and not a key of the declared configuration, sorted
ascending and without duplicates. -/
theorem discover_candidates_correct (explicit_installed : List String)
    (state : PackageState) (config : Config)
    (hnd : explicit_installed.Nodup) :
    (discover_candidates_from_explicit explicit_installed state config).Sorted
      (fun a b => strLe a b = true) ∧
    (discover_candidates_from_explicit explicit_installed state config).Nodup ∧
    ∀ p, p ∈ discover_candidates_from_explicit explicit_installed state config ↔
      (p ∈ explicit_installed ∧ state.is_managed p = false ∧
        state.is_untracked p = false ∧ config.contains_key p = false) := by
  unfold discover_candidates_from_explicit
  refine ⟨List.sorted_insertionSort _ _, ?_, ?_⟩
  · exact ((List.perm_insertionSort _ _).nodup_iff).mpr (((hnd.filter _).filter _).filter _)
  · intro p
    rw [(List.perm_insertionSort _ _).mem_iff]
    simp only [List.mem_filter, Bool.not_eq_true', and_assoc]

/-- Witness for C1 at the concrete scenario of the spec's testable
properties. -/
theorem discover_candidates_correct_witness :
    (["managed", "ignored", "in-config", "candidate-a", "candidate-b"] : List String).Nodup ∧
    ((discover_candidates_from_explicit
        ["managed", "ignored", "in-config", "candidate-a", "candidate-b"]
        ⟨["ignored"], [], ["managed"]⟩
        ⟨[("in-config", ⟨[], none, []⟩)]⟩).Sorted (fun a b => strLe a b = true) ∧
      (discover_candidates_from_explicit
        ["managed", "ignored", "in-config", "candidate-a", "candidate-b"]
        ⟨["ignored"], [], ["managed"]⟩
        ⟨[("in-config", ⟨[], none, []⟩)]⟩).Nodup ∧
      ∀ p, p ∈ discover_candidates_from_explicit
          ["managed", "ignored", "in-config", "candidate-a", "candidate-b"]
          ⟨["ignored"], [], ["managed"]⟩
          ⟨[("in-config", ⟨[], none, []⟩)]⟩ ↔
        (p ∈ ["managed", "ignored", "in-config", "candidate-a", "candidate-b"] ∧
          (PackageState.mk ["ignored"] [] ["managed"]).is_managed p = false ∧
          (PackageState.mk ["ignored"] [] ["managed"]).is_untracked p = false ∧
          (Config.mk [("in-config", ⟨[], none, []⟩)]).contains_key p = false)) :=
  ⟨by decide, discover_candidates_correct _ _ _ (by decide)⟩

/-! ## C2: mutual exclusivity of managed and untracked -/

/-- No package name is in both the managed and the untracked set. -/
def MutualExclusive (st : PackageState) : Prop :=
  ∀ p, p ∈ st.managed → p ∉ st.untracked

/-- The locals carried out of one iteration, whether it continued or
stopped. -/
def StepOut.locals : StepOut → LoopState
  | StepOut.cont ls => ls
  | StepOut.stop ls _ => ls

theorem processTarget_discovery_mutual (installed : List String) (config : Config)
    (pkg : String) (input : TargetInput) (ls : LoopState)
    (h : MutualExclusive ls.state) :
    MutualExclusive (processTarget true installed config pkg input ls).locals.state := by
  unfold processTarget processChecks
  split
  · exact h
  split
  · exact h
  split
  · exact h
  split
  · -- state-only adoption: the discovery guard says the target is not untracked
    rename_i hman hunt hinst hcfg
    intro q hq
    simp only [StepOut.locals] at hq ⊢
    simp only [Bool.true_and, Bool.not_eq_true] at hunt
    rcases (managed_add_managed ls.state pkg q).mp hq with hq2 | rfl
    · rw [untracked_add_managed]
      exact h q hq2
    · rw [untracked_add_managed]
      intro hmem
      rw [(is_untracked_iff ls.state q).mpr hmem] at hunt
      exact Bool.true_eq_false.mp hunt
  · -- prompt branch
    match hp : input.prompt with
    | none => exact h
    | some PackageAction.Adopt =>
      have hadopt : ∀ path, MutualExclusive ((adoptStep pkg path input.add ls).locals.state) := by
        intro path
        unfold adoptStep
        match input.add with
        | AddOutcome.ok AddResult.Added | AddOutcome.ok AddResult.AlreadyPresent =>
          intro q hq
          simp only [StepOut.locals] at hq ⊢
          rcases (managed_add_managed (ls.state.remove_untracked pkg) pkg q).mp hq with hq2 | rfl
          · rw [managed_remove_untracked] at hq2
            rw [untracked_add_managed]
            intro hc
            exact h q hq2 ((untracked_remove_untracked ls.state pkg q).mp hc).1
          · rw [untracked_add_managed]
            intro hc
            exact ((untracked_remove_untracked _ _ _).mp hc).2 rfl
        | AddOutcome.err => exact h
      match hs : ls.selected_config with
      | some path => exact hadopt path
      | none =>
        match hsel : input.sel with
        | SelOutcome.chosen path => exact hadopt path
        | SelOutcome.cancelled => exact h
        | SelOutcome.errored => exact h
    | some PackageAction.Ignore =>
      intro q hq
      simp only [StepOut.locals] at hq ⊢
      rw [managed_remove_managed] at hq
      rw [managed_add_untracked] at hq
      intro hc
      rcases (untracked_add_untracked ls.state pkg q).mp hc with hc2 | rfl
      · exact h q hq.1 hc2
      · exact hq.2 rfl
    | some PackageAction.Skip => exact h
    | some PackageAction.Quit => exact h

theorem runLoop_discovery_mutual (installed : List String) (config : Config) :
    ∀ (targets : List (String × TargetInput)) (ls : LoopState),
      MutualExclusive ls.state →
      MutualExclusive (runLoop true installed config targets ls).fst.state := by
  intro targets
  induction targets with
  | nil => intro ls h; exact h
  | cons t rest ih =>
    intro ls h
    obtain ⟨pkg, input⟩ := t
    have hstep := processTarget_discovery_mutual installed config pkg input ls h
    unfold runLoop
    cases hpt : processTarget true installed config pkg input ls with
    | cont ls2 =>
      rw [hpt] at hstep
      exact ih ls2 hstep
    | stop ls2 ex =>
      rw [hpt] at hstep
      exact hstep

/-- C2 (amended): for every starting store in which no name is in both
managed and untracked, every discovery-mode run of the adoption loop
preserves that property; in a non-discovery run a state-only adoption of
an explicitly named untracked target can violate it, as the
counterexample shows. -/
theorem adopt_run_mutual_exclusive_discovery (installed : List String) (config : Config)
    (targets : List (String × TargetInput)) (st : PackageState)
    (h : MutualExclusive st) :
    MutualExclusive (runAdopt true installed config targets st).final.state := by
  have hloop := runLoop_discovery_mutual installed config targets (initLoopState st) h
  unfold runAdopt
  dsimp only
  split
  · exact hloop
  · exact hloop

/-- Witness for C2 (amended) on a concrete discovery run: the untracked
target is skipped, leaving the sets disjoint. -/
theorem adopt_run_mutual_exclusive_discovery_witness :
    MutualExclusive ⟨["htop"], [], []⟩ ∧
    MutualExclusive (runAdopt true ["htop"] ⟨[("htop", ⟨[], none, []⟩)]⟩
      [("htop", ⟨none, SelOutcome.errored, AddOutcome.err⟩)]
      ⟨["htop"], [], []⟩).final.state :=
  have hme : MutualExclusive ⟨["htop"], [], []⟩ :=
    fun p hp => absurd hp (List.not_mem_nil p)
  ⟨hme, adopt_run_mutual_exclusive_discovery _ _ _ _ hme⟩

/-- Counterexample to C2 as stated: starting from the store with untracked
containing htop and managed empty (hence mutually exclusive), the explicit
(non-discovery) run on target htop — installed and declared in
configuration — performs a state-only adoption that adds htop to managed
without removing it from untracked, so the run ends with htop in both
sets. -/
theorem adopt_run_mutual_exclusive_cex :
    (PackageState.mk ["htop"] [] []).managed = [] ∧
    ((runAdopt false ["htop"] ⟨[("htop", ⟨[], none, []⟩)]⟩
        [("htop", ⟨none, SelOutcome.errored, AddOutcome.err⟩)]
        ⟨["htop"], [], []⟩).final.state.is_managed "htop" &&
      (runAdopt false ["htop"] ⟨[("htop", ⟨[], none, []⟩)]⟩
        [("htop", ⟨none, SelOutcome.errored, AddOutcome.err⟩)]
        ⟨["htop"], [], []⟩).final.state.is_untracked "htop") = true := by
  decide

/-! ## C3: early termination, preservation of mutations, and the save -/

theorem processTarget_changed_mono (d : Bool) (i : List String) (c : Config)
    (pkg : String) (input : TargetInput) (ls : LoopState)
    (h : ls.state_changed = true) :
    (processTarget d i c pkg input ls).locals.state_changed = true := by
  unfold processTarget processChecks adoptStep
  repeat' split
  all_goals simp_all [StepOut.locals]

theorem processTarget_state_frame (d : Bool) (i : List String) (c : Config)
    (pkg : String) (input : TargetInput) (ls : LoopState)
    (h : (processTarget d i c pkg input ls).locals.state_changed = false) :
    (processTarget d i c pkg input ls).locals.state = ls.state ∧
      ls.state_changed = false := by
  revert h
  unfold processTarget processChecks adoptStep
  repeat' split
  all_goals intro h; simp_all [StepOut.locals]

theorem runLoop_changed_mono (d : Bool) (i : List String) (c : Config) :
    ∀ (targets : List (String × TargetInput)) (ls : LoopState),
      ls.state_changed = true →
      (runLoop d i c targets ls).fst.state_changed = true := by
  intro targets
  induction targets with
  | nil => intro ls h; exact h
  | cons t rest ih =>
    intro ls h
    obtain ⟨pkg, input⟩ := t
    have hstep := processTarget_changed_mono d i c pkg input ls h
    unfold runLoop
    cases hpt : processTarget d i c pkg input ls with
    | cont ls2 =>
      rw [hpt] at hstep
      exact ih ls2 hstep
    | stop ls2 ex =>
      rw [hpt] at hstep
      exact hstep

theorem runLoop_state_frame (d : Bool) (i : List String) (c : Config) :
    ∀ (targets : List (String × TargetInput)) (ls : LoopState),
      (runLoop d i c targets ls).fst.state_changed = false →
      (runLoop d i c targets ls).fst.state = ls.state := by
  intro targets
  induction targets with
  | nil => intro ls _; rfl
  | cons t rest ih =>
    intro ls h
    obtain ⟨pkg, input⟩ := t
    unfold runLoop at h ⊢
    revert h
    cases hpt : processTarget d i c pkg input ls with
    | cont ls2 =>
      intro h
      dsimp only at h ⊢
      have hch2 : ls2.state_changed = false := by
        by_contra hc
        rw [Bool.not_eq_false] at hc
        rw [runLoop_changed_mono d i c rest ls2 hc] at h
        exact Bool.true_eq_false.mp h
      have hframe := (processTarget_state_frame d i c pkg input ls
        (by rw [hpt]; exact hch2)).1
      rw [hpt] at hframe
      rw [ih ls2 h]
      exact hframe
    | stop ls2 ex =>
      intro h
      dsimp only at h ⊢
      have hframe := (processTarget_state_frame d i c pkg input ls
        (by rw [hpt]; exact h)).1
      rw [hpt] at hframe
      exact hframe

/-- C3 (amended): when a run ends — normally or through any abort — the
returned in-memory store carries exactly the accumulated mutations (in
particular, when the mutation flag is unset the store equals the loaded
one), and the store is saved precisely when a mutation occurred and the
run did not abort through a configuration-selection read failure; that
failure returns from the command before the post-loop save, as the
counterexample shows, while Quit, a prompt read failure and selection
cancellation still reach the save. -/
theorem adopt_run_save_behavior (d : Bool) (i : List String) (c : Config)
    (targets : List (String × TargetInput)) (st : PackageState) :
    ((runAdopt d i c targets st).final.state_changed = false →
      (runAdopt d i c targets st).final.state = st) ∧
    ((runAdopt d i c targets st).saved = true ↔
      ((runAdopt d i c targets st).final.state_changed = true ∧
        (runAdopt d i c targets st).exit ≠ LoopExit.selectionError)) := by
  unfold runAdopt
  dsimp only
  split
  · rename_i hex
    constructor
    · intro h
      exact runLoop_state_frame d i c targets (initLoopState st) h
    · simp [hex]
  · rename_i hex
    constructor
    · intro h
      exact runLoop_state_frame d i c targets (initLoopState st) h
    · simp [hex]

/-- Witness for C3 (amended): a concrete aborted run (Quit on the second
target after a state-only adoption of the first) in which the mutation is
preserved and the save is performed. -/
theorem adopt_run_save_behavior_witness :
    ((runAdopt false ["alpha", "beta"] ⟨[("alpha", ⟨[], none, []⟩)]⟩
        [("alpha", ⟨none, SelOutcome.errored, AddOutcome.err⟩),
          ("beta", ⟨some PackageAction.Quit, SelOutcome.errored, AddOutcome.err⟩)]
        ⟨[], [], []⟩).final.state_changed = false →
      (runAdopt false ["alpha", "beta"] ⟨[("alpha", ⟨[], none, []⟩)]⟩
        [("alpha", ⟨none, SelOutcome.errored, AddOutcome.err⟩),
          ("beta", ⟨some PackageAction.Quit, SelOutcome.errored, AddOutcome.err⟩)]
        ⟨[], [], []⟩).final.state = ⟨[], [], []⟩) ∧
    ((runAdopt false ["alpha", "beta"] ⟨[("alpha", ⟨[], none, []⟩)]⟩
        [("alpha", ⟨none, SelOutcome.errored, AddOutcome.err⟩),
          ("beta", ⟨some PackageAction.Quit, SelOutcome.errored, AddOutcome.err⟩)]
        ⟨[], [], []⟩).saved = true ↔
      ((runAdopt false ["alpha", "beta"] ⟨[("alpha", ⟨[], none, []⟩)]⟩
          [("alpha", ⟨none, SelOutcome.errored, AddOutcome.err⟩),
            ("beta", ⟨some PackageAction.Quit, SelOutcome.errored, AddOutcome.err⟩)]
          ⟨[], [], []⟩).final.state_changed = true ∧
        (runAdopt false ["alpha", "beta"] ⟨[("alpha", ⟨[], none, []⟩)]⟩
            [("alpha", ⟨none, SelOutcome.errored, AddOutcome.err⟩),
              ("beta", ⟨some PackageAction.Quit, SelOutcome.errored, AddOutcome.err⟩)]
            ⟨[], [], []⟩).exit ≠ LoopExit.selectionError)) :=
  adopt_run_save_behavior false ["alpha", "beta"] ⟨[("alpha", ⟨[], none, []⟩)]⟩
    [("alpha", ⟨none, SelOutcome.errored, AddOutcome.err⟩),
      ("beta", ⟨some PackageAction.Quit, SelOutcome.errored, AddOutcome.err⟩)]
    ⟨[], [], []⟩

/-- Counterexample to C3 as stated: a run whose first target is adopted
state-only (a mutation) and whose second target hits a read failure of the
configuration-file selection ends with the mutation flag set and the
mutation still in the in-memory store, yet the store is not saved, because
the selection-failure branch returns from the command before the
post-loop save. -/
theorem adopt_run_save_on_selection_error_cex :
    (runAdopt false ["alpha", "beta"] ⟨[("alpha", ⟨[], none, []⟩)]⟩
        [("alpha", ⟨none, SelOutcome.errored, AddOutcome.err⟩),
          ("beta", ⟨some PackageAction.Adopt, SelOutcome.errored, AddOutcome.err⟩)]
        ⟨[], [], []⟩).final.state_changed = true ∧
    (runAdopt false ["alpha", "beta"] ⟨[("alpha", ⟨[], none, []⟩)]⟩
        [("alpha", ⟨none, SelOutcome.errored, AddOutcome.err⟩),
          ("beta", ⟨some PackageAction.Adopt, SelOutcome.errored, AddOutcome.err⟩)]
        ⟨[], [], []⟩).final.state.is_managed "alpha" = true ∧
    (runAdopt false ["alpha", "beta"] ⟨[("alpha", ⟨[], none, []⟩)]⟩
        [("alpha", ⟨none, SelOutcome.errored, AddOutcome.err⟩),
          ("beta", ⟨some PackageAction.Adopt, SelOutcome.errored, AddOutcome.err⟩)]
        ⟨[], [], []⟩).exit = LoopExit.selectionError ∧
    (runAdopt false ["alpha", "beta"] ⟨[("alpha", ⟨[], none, []⟩)]⟩
        [("alpha", ⟨none, SelOutcome.errored, AddOutcome.err⟩),
          ("beta", ⟨some PackageAction.Adopt, SelOutcome.errored, AddOutcome.err⟩)]
        ⟨[], [], []⟩).saved = false := by
  decide

/-! ## C4: removal handling -/

theorem is_managed_remove_managed (s : PackageState) (a p : String) :
    (s.remove_managed a).is_managed p = (s.is_managed p && !(p == a)) := by
  rw [Bool.eq_iff_iff, Bool.and_eq_true, Bool.not_eq_true', beq_eq_false_iff_ne,
    is_managed_iff, is_managed_iff]
  exact managed_remove_managed s a p

theorem foldl_remove_managed_is_managed (l : List String) :
    ∀ (st : PackageState) (p : String),
      (l.foldl (fun s q => s.remove_managed q) st).is_managed p =
        (st.is_managed p && !(l.contains p)) := by
  induction l with
  | nil => intro st p; simp
  | cons a l ih =>
    intro st p
    rw [List.foldl_cons, ih, is_managed_remove_managed]
    by_cases hpa : p = a
    · subst hpa
      simp [List.contains_cons]
    · have h1 : (p == a) = false := beq_eq_false_iff_ne.mpr hpa
      have h2 : (a == p) = false := beq_eq_false_iff_ne.mpr (Ne.symm hpa)
      simp [List.contains_cons, h1, h2, hpa]

theorem foldl_remove_managed_untracked (l : List String) :
    ∀ st : PackageState,
      (l.foldl (fun s q => s.remove_managed q) st).untracked = st.untracked := by
  induction l with
  | nil => intro st; rfl
  | cons a l ih =>
    intro st
    rw [List.foldl_cons, ih, untracked_remove_managed]

theorem foldl_remove_managed_hidden (l : List String) :
    ∀ st : PackageState,
      (l.foldl (fun s q => s.remove_managed q) st).hidden = st.hidden := by
  induction l with
  | nil => intro st; rfl
  | cons a l ih =>
    intro st
    rw [List.foldl_cons, ih]
    rfl

/-- C4: removal handling leaves the classification store completely
unchanged when the batch is empty, in dry-run mode, when the user
declines the confirmation, or when the confirmed backend removal call
fails; only when the confirmed call succeeds is every package of the
batch dropped from managed, and nothing else in the store changes. -/
theorem handle_removals_correct (to_remove : List String)
    (dry_run confirm backend_ok : Bool) (st : PackageState) :
    (to_remove = [] → handle_removals to_remove dry_run confirm backend_ok st = st) ∧
    (dry_run = true → handle_removals to_remove dry_run confirm backend_ok st = st) ∧
    (confirm = false → handle_removals to_remove dry_run confirm backend_ok st = st) ∧
    (backend_ok = false → handle_removals to_remove dry_run confirm backend_ok st = st) ∧
    (to_remove ≠ [] → dry_run = false → confirm = true → backend_ok = true →
      (∀ p, (handle_removals to_remove dry_run confirm backend_ok st).is_managed p =
          (st.is_managed p && !(to_remove.contains p))) ∧
      (handle_removals to_remove dry_run confirm backend_ok st).untracked = st.untracked ∧
      (handle_removals to_remove dry_run confirm backend_ok st).hidden = st.hidden) := by
  refine ⟨?_, ?_, ?_, ?_, ?_⟩
  · intro h
    simp [handle_removals, h]
  · intro h
    simp [handle_removals, h]
  · intro h
    simp [handle_removals, h]
  · intro h
    simp [handle_removals, h]
  · intro h1 h2 h3 h4
    have hne : to_remove.isEmpty = false := by
      cases to_remove with
      | nil => exact absurd rfl h1
      | cons a l => rfl
    refine ⟨?_, ?_, ?_⟩
    · intro p
      simp only [handle_removals, hne, h2, h3, h4, Bool.false_eq_true, if_false,
        Bool.not_false, Bool.not_true, if_true]
      exact foldl_remove_managed_is_managed to_remove st p
    · simp only [handle_removals, hne, h2, h3, h4, Bool.false_eq_true, if_false,
        Bool.not_false, Bool.not_true, if_true]
      exact foldl_remove_managed_untracked to_remove st
    · simp only [handle_removals, hne, h2, h3, h4, Bool.false_eq_true, if_false,
        Bool.not_false, Bool.not_true, if_true]
      exact foldl_remove_managed_hidden to_remove st

/-- Witness for C4 at a concrete two-package store with a one-package
batch on the successful path. -/
theorem handle_removals_correct_witness :
    (["alpha"] ≠ ([] : List String)) ∧
    ((["alpha"] = ([] : List String) →
        handle_removals ["alpha"] false true true ⟨["u"], ["h"], ["alpha", "beta"]⟩ =
          ⟨["u"], ["h"], ["alpha", "beta"]⟩) ∧
      (false = true →
        handle_removals ["alpha"] false true true ⟨["u"], ["h"], ["alpha", "beta"]⟩ =
          ⟨["u"], ["h"], ["alpha", "beta"]⟩) ∧
      (true = false →
        handle_removals ["alpha"] false true true ⟨["u"], ["h"], ["alpha", "beta"]⟩ =
          ⟨["u"], ["h"], ["alpha", "beta"]⟩) ∧
      (true = false →
        handle_removals ["alpha"] false true true ⟨["u"], ["h"], ["alpha", "beta"]⟩ =
          ⟨["u"], ["h"], ["alpha", "beta"]⟩) ∧
      (["alpha"] ≠ ([] : List String) → false = false → true = true → true = true →
        (∀ p, (handle_removals ["alpha"] false true true
              ⟨["u"], ["h"], ["alpha", "beta"]⟩).is_managed p =
            ((PackageState.mk ["u"] ["h"] ["alpha", "beta"]).is_managed p &&
              !(["alpha"].contains p))) ∧
        (handle_removals ["alpha"] false true true
            ⟨["u"], ["h"], ["alpha", "beta"]⟩).untracked = ["u"] ∧
        (handle_removals ["alpha"] false true true
            ⟨["u"], ["h"], ["alpha", "beta"]⟩).hidden = ["h"])) :=
  ⟨by decide, handle_removals_correct ["alpha"] false true true ⟨["u"], ["h"], ["alpha", "beta"]⟩⟩

/-! ## C5: adopting an already-present package -/

/-- C5: when the target file content already contains the package — as
judged by the parse of the content, or by a literal trimmed-line match
when parsing fails — add_package_to_file returns AlreadyPresent and leaves
the file untouched; and the adoption-loop iteration that receives that
result removes the name from untracked, adds it to managed, sets the
mutation flag and classifies the target adopted_state_only. -/
theorem adopt_already_present (parse : String → Option Config)
    (name content : String) (discover : Bool) (installed : List String)
    (config : Config) (ls : LoopState) (path : String)
    (hpresent : config_contains_package parse name content = true)
    (h1 : ls.state.is_managed name = false)
    (h2 : (discover && ls.state.is_untracked name) = false)
    (h3 : installed.contains name = true)
    (h4 : config.contains_key name = false)
    (h5 : ls.selected_config = some path) :
    add_package_to_file parse name (some content) = (AddResult.AlreadyPresent, some content) ∧
    processTarget discover installed config name
        ⟨some PackageAction.Adopt, SelOutcome.errored, AddOutcome.ok AddResult.AlreadyPresent⟩ ls =
      StepOut.cont { ls with
        state := (ls.state.remove_untracked name).add_managed name
        state_changed := true
        adopted_state_only := ls.adopted_state_only ++ [name] } := by
  constructor
  · unfold add_package_to_file
    simp [hpresent]
  · unfold processTarget
    rw [h1, h2]
    simp only [Bool.false_eq_true, if_false]
    unfold processChecks
    rw [h3, h4]
    simp only [Bool.not_true, Bool.false_eq_true, if_false]
    rw [h5]
    unfold adoptStep
    rfl

/-- Witness for C5: adopting htop into a file that parses and already
lists htop, from a store where htop is untracked. -/
theorem adopt_already_present_witness :
    config_contains_package Config.parseSpec "htop" "@packages\nhtop\n" = true ∧
    (add_package_to_file Config.parseSpec "htop" (some "@packages\nhtop\n") =
        (AddResult.AlreadyPresent, some "@packages\nhtop\n") ∧
      processTarget false ["htop"] ⟨[]⟩ "htop"
          ⟨some PackageAction.Adopt, SelOutcome.errored, AddOutcome.ok AddResult.AlreadyPresent⟩
          ⟨⟨["htop"], [], []⟩, false, some "main.owl", [], [], [], [], [], []⟩ =
        StepOut.cont ⟨⟨[], [], ["htop"]⟩, true, some "main.owl", [], ["htop"], [], [], [], []⟩) := by
  refine ⟨by decide, ?_⟩
  have h := adopt_already_present Config.parseSpec "htop" "@packages\nhtop\n" false ["htop"]
    ⟨[]⟩ ⟨⟨["htop"], [], []⟩, false, some "main.owl", [], [], [], [], [], []⟩ "main.owl"
    (by decide) (by decide) (by decide) (by decide) (by decide) rfl
  exact ⟨h.1, by rw [h.2]; decide⟩

/-! ## C6: adopting into an absent or empty file -/

/-- C6: writing a package into an absent or into an empty
declared-configuration file yields exactly the packages header line
followed by the package name with a single trailing newline, and the
Added result, never AlreadyPresent. -/
theorem add_package_fresh_file (name : String) :
    add_package_to_file Config.parseSpec name none =
      (AddResult.Added, some ("@packages" ++ "\n" ++ name ++ "\n")) ∧
    add_package_to_file Config.parseSpec name (some "") =
      (AddResult.Added, some ("@packages" ++ "\n" ++ name ++ "\n")) := by
  constructor <;>
  · unfold add_package_to_file config_contains_package Config.parseSpec
    simp [rustLines, splitLinesChars, parsePackageLines, Config.contains_key,
      insertAfterHeader, joinLines]

/-! ## C7: already-managed targets are skipped; idempotence -/

/-- C7: a target already in the managed set when its iteration begins is
classified skipped_already_managed with no store mutation; consequently a
run on a single target that a previous run marked managed ends with the
store unchanged, the mutation flag unset, no save, and exactly that
classification. -/
theorem adopt_already_managed_skip (d : Bool) (i : List String) (c : Config)
    (pkg : String) (input : TargetInput) (ls : LoopState)
    (h : ls.state.is_managed pkg = true) :
    processTarget d i c pkg input ls =
      StepOut.cont { ls with
        skipped_already_managed := ls.skipped_already_managed ++ [pkg] } ∧
    ∀ st : PackageState, st.is_managed pkg = true →
      (runAdopt d i c [(pkg, input)] st).final.state = st ∧
      (runAdopt d i c [(pkg, input)] st).final.state_changed = false ∧
      (runAdopt d i c [(pkg, input)] st).final.skipped_already_managed = [pkg] ∧
      (runAdopt d i c [(pkg, input)] st).saved = false := by
  have hstep : ∀ ls2 : LoopState, ls2.state.is_managed pkg = true →
      processTarget d i c pkg input ls2 =
        StepOut.cont { ls2 with
          skipped_already_managed := ls2.skipped_already_managed ++ [pkg] } := by
    intro ls2 h2
    unfold processTarget
    rw [h2]
    simp
  refine ⟨hstep ls h, ?_⟩
  intro st hst
  have h1 : processTarget d i c pkg input (initLoopState st) =
      StepOut.cont { initLoopState st with
        skipped_already_managed := (initLoopState st).skipped_already_managed ++ [pkg] } :=
    hstep (initLoopState st) hst
  have hrun : runLoop d i c [(pkg, input)] (initLoopState st) =
      (⟨st, false, none, [], [], [], [], [], [pkg]⟩, LoopExit.finished) := by
    unfold runLoop
    rw [h1]
    rfl
  refine ⟨?_, ?_, ?_, ?_⟩ <;> simp [runAdopt, hrun]

/-- Witness for C7 on the store that manages htop. -/
theorem adopt_already_managed_skip_witness :
    (initLoopState ⟨[], [], ["htop"]⟩).state.is_managed "htop" = true ∧
    (processTarget false [] ⟨[]⟩ "htop" ⟨none, SelOutcome.errored, AddOutcome.err⟩
        (initLoopState ⟨[], [], ["htop"]⟩) =
      StepOut.cont { initLoopState ⟨[], [], ["htop"]⟩ with
        skipped_already_managed :=
          (initLoopState ⟨[], [], ["htop"]⟩).skipped_already_managed ++ ["htop"] } ∧
    ∀ st : PackageState, st.is_managed "htop" = true →
      (runAdopt false [] ⟨[]⟩ [("htop", ⟨none, SelOutcome.errored, AddOutcome.err⟩)] st).final.state = st ∧
      (runAdopt false [] ⟨[]⟩ [("htop", ⟨none, SelOutcome.errored, AddOutcome.err⟩)] st).final.state_changed = false ∧
      (runAdopt false [] ⟨[]⟩ [("htop", ⟨none, SelOutcome.errored, AddOutcome.err⟩)] st).final.skipped_already_managed = ["htop"] ∧
      (runAdopt false [] ⟨[]⟩ [("htop", ⟨none, SelOutcome.errored, AddOutcome.err⟩)] st).saved = false) :=
  ⟨by decide,
    adopt_already_managed_skip false [] ⟨[]⟩ "htop" ⟨none, SelOutcome.errored, AddOutcome.err⟩
      (initLoopState ⟨[], [], ["htop"]⟩) (by decide)⟩

/-! ## C8: untracked targets and the discovery asymmetry -/

/-- C8: an untracked, not currently managed target is classified skipped
with no mutation when the run is in discovery mode, while the same target
supplied explicitly is not stopped by the untracked check: its iteration
is exactly the remaining installed / declared-config / prompt stage. -/
theorem adopt_untracked_discovery_asymmetry (i : List String) (c : Config)
    (pkg : String) (input : TargetInput) (ls : LoopState)
    (hm : ls.state.is_managed pkg = false)
    (hu : ls.state.is_untracked pkg = true) :
    processTarget true i c pkg input ls =
      StepOut.cont { ls with skipped := ls.skipped ++ [pkg] } ∧
    processTarget false i c pkg input ls = processChecks i c pkg input ls := by
  constructor
  · unfold processTarget
    rw [hm, hu]
    simp
  · unfold processTarget
    rw [hm]
    simp

/-- Witness for C8 with htop untracked, installed and absent from the
declared configuration: discovery skips it, the explicit run reaches the
prompt and ignores it again. -/
theorem adopt_untracked_discovery_asymmetry_witness :
    (PackageState.mk ["htop"] [] []).is_managed "htop" = false ∧
    (PackageState.mk ["htop"] [] []).is_untracked "htop" = true ∧
    (processTarget true ["htop"] ⟨[]⟩ "htop"
        ⟨some PackageAction.Ignore, SelOutcome.errored, AddOutcome.err⟩
        (initLoopState ⟨["htop"], [], []⟩) =
      StepOut.cont { initLoopState ⟨["htop"], [], []⟩ with
        skipped := (initLoopState ⟨["htop"], [], []⟩).skipped ++ ["htop"] } ∧
    processTarget false ["htop"] ⟨[]⟩ "htop"
        ⟨some PackageAction.Ignore, SelOutcome.errored, AddOutcome.err⟩
        (initLoopState ⟨["htop"], [], []⟩) =
      processChecks ["htop"] ⟨[]⟩ "htop"
        ⟨some PackageAction.Ignore, SelOutcome.errored, AddOutcome.err⟩
        (initLoopState ⟨["htop"], [], []⟩)) :=
  ⟨by decide, by decide,
    adopt_untracked_discovery_asymmetry ["htop"] ⟨[]⟩ "htop"
      ⟨some PackageAction.Ignore, SelOutcome.errored, AddOutcome.err⟩
      (initLoopState ⟨["htop"], [], []⟩) (by decide) (by decide)⟩

/-! ## C9: the passthrough environment toggle -/

/-- C9 (amended): passthrough is enabled exactly when the run is
interactive and the value of the environment variable, after trimming
surrounding whitespace, is ASCII-case-insensitively one of 1, true, yes,
on; absence or any other value disables it, and it is always disabled when
running non-interactively. -/
theorem use_pm_passthrough_correct (non_interactive : Bool) (env : Option String) :
    use_pm_passthrough non_interactive env = true ↔
      (non_interactive = false ∧ ∃ v, env = some v ∧
        (lowerAscii (strTrim v) = "1" ∨ lowerAscii (strTrim v) = "true" ∨
          lowerAscii (strTrim v) = "yes" ∨ lowerAscii (strTrim v) = "on")) := by
  unfold use_pm_passthrough
  cases non_interactive
  · cases env <;> simp
  · simp

/-- Counterexample to C9 as stated: the environment value consisting of
the word true with a leading space enables passthrough in the code (the
value is trimmed before comparison), yet it is not case-insensitively
equal to any of the four tokens, so the claimed equivalence fails. -/
theorem use_pm_passthrough_trim_cex :
    use_pm_passthrough false (some " true") = true ∧
    passthroughEnabledSpec false (some " true") = false := by
  decide

/-! ## C10: backend failures at apply time are absorbed -/

/-- C10: when the backend categorization call fails, the install-set
partition is the pair of empty lists, and when the secondary-backend
update query fails, the update set used is empty; both errors are
absorbed rather than propagated. -/
theorem apply_backend_failure_defaults (to_install : List String)
    (categorize : List String → Except String (List String × List String))
    (e e2 : String) (dry_run : Bool)
    (hc : categorize to_install = Except.error e) :
    categorize_install_sets to_install categorize = ([], []) ∧
    compute_aur_updates dry_run (Except.error e2) = [] := by
  constructor
  · unfold categorize_install_sets
    split
    · rfl
    · rw [hc]
  · unfold compute_aur_updates
    split <;> rfl

/-- Witness for C10 with a concrete failing backend. -/
theorem apply_backend_failure_defaults_witness :
    (fun _ : List String =>
        (Except.error "boom" : Except String (List String × List String))) ["pkg"] =
      Except.error "boom" ∧
    (categorize_install_sets ["pkg"]
        (fun _ => (Except.error "boom" : Except String (List String × List String))) =
      ([], []) ∧
    compute_aur_updates false (Except.error "nope") = []) :=
  ⟨rfl, apply_backend_failure_defaults ["pkg"]
    (fun _ => (Except.error "boom" : Except String (List String × List String)))
    "boom" "nope" false rfl⟩

end Owl
